import Mathlib

/-!
Shallow embedding of the FileGO core (Go sources) and proofs about it.

Embedded components:
* Node registry (`NodeManager` in `backend/internal/node/node.go`):
  `RegisterNode`, `GetNode`, `UpdateNodeStatus`, `UpdateNodeStorage`,
  `RemoveNode`, `HeartbeatNode`, `GetOptimalStorageNodes`.
* Chunk store (`backend/internal/fs/chunks.go`): `ChunkFile`, `ReassembleFile`.
* P2P read loop and `DisconnectPeer` (`backend/internal/node/p2p.go`).

Go maps are modelled as association lists (insertion updates the first
binding in place, or appends a fresh binding); Go `int`/`int64` as `Int`
where negative values matter; wall-clock time as an explicit `now : Nat`
argument; the external `url.Parse` success test as an abstract boolean
predicate `parseOk`; SHA-256 as an abstract `hash` function (assumed
collision-free on the bytes at hand, which is the content-addressing
assumption the code relies on).  Failures surface as `Except`; a Go
runtime panic is modelled as a dedicated error value or `Option.none`,
as noted at each definition.
-/

/-- Errors surfaced by the node registry, one per distinct `errors.New`
message in the Go source. -/
inductive NMErr where
  | invalidInput : NMErr
  | conflict : NMErr
  | notFound : NMErr
  deriving DecidableEq, Repr

/-- `Node` from `node.go`: id, address, status string, storage counters and
last-seen time.  `int64` fields become `Int`; `time.Time` becomes `Nat`. -/
structure Node where
  ID : String
  Address : String
  Status : String
  StorageUsed : Int
  StorageMax : Int
  LastSeen : Nat
  deriving DecidableEq, Repr

/-- Association-list lookup, modelling Go map indexing `m[k]`. -/
def alLookup {α : Type} : List (String × α) → String → Option α
  | [], _ => none
  | (k, v) :: t, key => if k == key then some v else alLookup t key

/-- Association-list update, modelling Go map assignment `m[k] = v`:
replaces the first binding of `k` if present, else adds a binding. -/
def alSet {α : Type} : List (String × α) → String → α → List (String × α)
  | [], key, v => [(key, v)]
  | (k, w) :: t, key, v =>
    if k == key then (key, v) :: t else (k, w) :: alSet t key v

/-- Association-list removal, modelling Go `delete(m, k)`. -/
def alErase {α : Type} : List (String × α) → String → List (String × α)
  | [], _ => []
  | (k, w) :: t, key => if k == key then t else (k, w) :: alErase t key

/-- `NodeManager` state: the `nodes` map keyed by id and the reverse
`nodeAddrs` map from address to id. -/
structure NM where
  nodes : List (String × Node)
  nodeAddrs : List (String × String)
  deriving DecidableEq, Repr

/-- The empty manager produced by `NewNodeManager`. -/
def NewNodeManager : NM := ⟨[], []⟩

/-- `RegisterNode` from `node.go`.  `parseOk` abstracts the success of the
external `url.Parse` call; `now` abstracts `time.Now()`.  Returns the new
state together with the returned node, or the error of the failing branch. -/
def RegisterNode (parseOk : String → Bool) (nm : NM) (id address : String)
    (storageMax : Int) (now : Nat) : Except NMErr (NM × Node) :=
  if ¬ parseOk address then
    .error .invalidInput
  else
    match alLookup nm.nodeAddrs address with
    | some existingID =>
      if existingID ≠ id then
        .error .conflict
      else
        registerUpsert nm id address storageMax now
    | none => registerUpsert nm id address storageMax now
where
  /-- The create-or-update tail of `RegisterNode` (after validation). -/
  registerUpsert (nm : NM) (id address : String) (storageMax : Int)
      (now : Nat) : Except NMErr (NM × Node) :=
    match alLookup nm.nodes id with
    | none =>
      let node : Node := ⟨id, address, "active", 0, storageMax, now⟩
      .ok (⟨alSet nm.nodes id node, alSet nm.nodeAddrs address id⟩, node)
    | some n =>
      let node : Node :=
        { n with Address := address, Status := "active",
                 StorageMax := storageMax, LastSeen := now }
      .ok (⟨alSet nm.nodes id node, alSet nm.nodeAddrs address id⟩, node)

/-- `GetNode` from `node.go`. -/
def GetNode (nm : NM) (id : String) : Except NMErr Node :=
  match alLookup nm.nodes id with
  | none => .error .notFound
  | some n => .ok n

/-- `UpdateNodeStatus` from `node.go`: existence is checked before the
status value, exactly as in the source. -/
def UpdateNodeStatus (nm : NM) (id status : String) (now : Nat) :
    Except NMErr NM :=
  match alLookup nm.nodes id with
  | none => .error .notFound
  | some n =>
    if status ≠ "active" ∧ status ≠ "inactive" ∧ status ≠ "failed" then
      .error .invalidInput
    else
      .ok ⟨alSet nm.nodes id { n with Status := status, LastSeen := now },
           nm.nodeAddrs⟩

/-- `UpdateNodeStorage` from `node.go`. -/
def UpdateNodeStorage (nm : NM) (id : String) (storageUsed : Int)
    (now : Nat) : Except NMErr NM :=
  match alLookup nm.nodes id with
  | none => .error .notFound
  | some n =>
    if storageUsed < 0 then
      .error .invalidInput
    else if n.StorageMax < storageUsed then
      .error .invalidInput
    else
      .ok ⟨alSet nm.nodes id
             { n with StorageUsed := storageUsed, LastSeen := now },
           nm.nodeAddrs⟩

/-- `RemoveNode` from `node.go`: removes the address binding of the node's
current address, then the node itself. -/
def RemoveNode (nm : NM) (id : String) : Except NMErr NM :=
  match alLookup nm.nodes id with
  | none => .error .notFound
  | some n =>
    .ok ⟨alErase nm.nodes id, alErase nm.nodeAddrs n.Address⟩

/-- `HeartbeatNode` from `node.go`. -/
def HeartbeatNode (nm : NM) (id : String) (now : Nat) : Except NMErr NM :=
  match alLookup nm.nodes id with
  | none => .error .notFound
  | some n =>
    .ok ⟨alSet nm.nodes id { n with LastSeen := now }, nm.nodeAddrs⟩

/-- The spec's registry invariant `0 ≤ storageUsed ≤ storageMax`, as a
decidable check over every node in the manager. -/
def invariantB (nm : NM) : Bool :=
  nm.nodes.all fun e => 0 ≤ e.2.StorageUsed ∧ e.2.StorageUsed ≤ e.2.StorageMax

/-- Free space of a node, `node.StorageMax - node.StorageUsed` in Go. -/
def availSpace (n : Node) : Int := n.StorageMax - n.StorageUsed

/-- The filter of `GetOptimalStorageNodes`: status is `"active"` and
`(StorageMax - StorageUsed) >= fileSize`. -/
def eligibleFor (fileSize : Int) (n : Node) : Bool :=
  n.Status == "active" && fileSize ≤ availSpace n

/-- One pass of the in-place exchange sort in `GetOptimalStorageNodes`
(the inner `j` loop, for a fixed `i`): carries the current occupant of
slot `i`; whenever a later element has strictly more free space the two
are swapped.  Returns the final occupant of slot `i` and the remaining
suffix in its post-pass order. -/
def selectPass (x : Node) : List Node → Node × List Node
  | [] => (x, [])
  | y :: ys =>
    if availSpace x < availSpace y then
      let p := selectPass y ys
      (p.1, x :: p.2)
    else
      let p := selectPass x ys
      (p.1, y :: p.2)

/-- The double loop of `GetOptimalStorageNodes` that sorts eligible nodes
by descending free space.  Structural fuel: one unit per outer-loop
iteration; the wrapper `exchangeSort` supplies `l.length`, which is
exactly the number of iterations, so the fuel-exhausted branch is
unreachable. -/
def exchangeSortGo : Nat → List Node → List Node
  | _, [] => []
  | 0, l => l
  | fuel + 1, x :: xs =>
    let p := selectPass x xs
    p.1 :: exchangeSortGo fuel p.2

/-- The sorting phase of `GetOptimalStorageNodes`. -/
def exchangeSort (l : List Node) : List Node := exchangeSortGo l.length l

/-- `GetOptimalStorageNodes` from `node.go`, over the registry's nodes in
map-iteration order.  `replicaCount` is a Go `int`, so it may be negative;
`make([]string, resultCount)` with `resultCount < 0` panics at runtime,
modelled as `none`. -/
def GetOptimalStorageNodes (nodes : List Node) (fileSize : Int)
    (replicaCount : Int) : Option (List String) :=
  let eligibleNodes := nodes.filter (eligibleFor fileSize)
  let sorted := exchangeSort eligibleNodes
  let resultCount := min replicaCount (eligibleNodes.length : Int)
  if resultCount < 0 then none
  else some ((sorted.take resultCount.toNat).map Node.ID)

/-- The per-node storage invariant as a boolean check. -/
def nodeOK (e : String × Node) : Bool :=
  0 ≤ e.2.StorageUsed ∧ e.2.StorageUsed ≤ e.2.StorageMax

/-- `ChunkInfo` from `chunks.go`.  `Index` is a Go `int`, so `Int` here
(negative indices reach `ReassembleFile` unchecked by the type). -/
structure ChunkInfo where
  ID : String
  Index : Int
  Size : Nat
  FileID : String
  Location : String
  deriving DecidableEq, Repr

/-- The chunk directory on disk: a write log of
`(fileID, chunkID, bytes)` entries, newest first (`os.WriteFile`
overwrites, so a lookup returns the newest entry). -/
abbrev Disk : Type := List (String × String × List Nat)

/-- `os.ReadFile` of `<chunksDir>/<fileID>/<chunkID>`. -/
def readDisk (d : Disk) (fid cid : String) : Option (List Nat) :=
  (List.find? (fun e => e.1 == fid && e.2.1 == cid) d).map (fun e => e.2.2)

/-- `os.WriteFile` of `<chunksDir>/<fileID>/<chunkID>`. -/
def writeDisk (d : Disk) (fid cid : String) (data : List Nat) : Disk :=
  (fid, cid, data) :: d

/-- The read loop of `ChunkFile`: repeatedly read up to `chunkSize` bytes
until EOF.  Structural fuel: one unit per loop iteration; with
`chunkSize > 0` each iteration consumes at least one byte, so the
wrapper's fuel `content.length` is always sufficient (for
`chunkSize = 0` the Go loop would not terminate at all, and
`NewFileChunker` makes that unreachable by substituting the default). -/
def chunksOfGo : Nat → Nat → List Nat → List (List Nat)
  | _, _, [] => []
  | 0, _, _ => []
  | fuel + 1, chunkSize, content =>
    content.take chunkSize :: chunksOfGo fuel chunkSize (content.drop chunkSize)

/-- The successive chunks `ChunkFile` reads from a byte stream. -/
def chunksOf (chunkSize : Nat) (content : List Nat) : List (List Nat) :=
  chunksOfGo content.length chunkSize content

/-- The `ChunkInfo` records built by `ChunkFile`'s loop, with the running
`index` counter. -/
def mkChunkInfos (hash : List Nat → String) (fid : String) :
    Nat → List (List Nat) → List ChunkInfo
  | _, [] => []
  | index, piece :: rest =>
    ⟨hash piece, (index : Int), piece.length, fid, ""⟩ ::
      mkChunkInfos hash fid (index + 1) rest

/-- The disk writes performed by `ChunkFile`'s loop, in loop order. -/
def writeChunks (hash : List Nat → String) (fid : String) (d : Disk)
    (pieces : List (List Nat)) : Disk :=
  pieces.foldl (fun acc piece => writeDisk acc fid (hash piece) piece) d

/-- `ChunkFile` from `chunks.go`: hashes the whole content for the file
id, then splits the content into `chunkSize`-byte pieces (last may be
shorter), writing each piece to `<fileID>/<chunkHash>` and recording a
`ChunkInfo` with the running index.  `hash` abstracts hex-encoded
SHA-256.  Returns `(fileID, chunk list, disk after the writes)`. -/
def ChunkFile (hash : List Nat → String) (chunkSize : Nat)
    (content : List Nat) (d : Disk) : String × List ChunkInfo × Disk :=
  let fileID := hash content
  let pieces := chunksOf chunkSize content
  (fileID, mkChunkInfos hash fileID 0 pieces, writeChunks hash fileID d pieces)

/-- How `ReassembleFile` can fail.  `invalidIndex i` is the
`"invalid chunk index"` error; `nilDeref` is the nil-pointer dereference
panic that occurs when a slot of `sortedChunks` was never filled
(possible when in-range indices repeat); `readFail` is a failed
`os.ReadFile` of a chunk. -/
inductive ReassembleError where
  | invalidIndex : Int → ReassembleError
  | nilDeref : ReassembleError
  | readFail : String → ReassembleError
  deriving DecidableEq, Repr

/-- The first loop of `ReassembleFile`: bounds-check each chunk's index
against the input length and place it into its slot of `sortedChunks`
(`n` is `len(chunks)`; `List.set` is a no-op out of range, but the check
guarantees the index is in range). -/
def placeChunks (n : Nat) : List ChunkInfo → List (Option ChunkInfo) →
    Except ReassembleError (List (Option ChunkInfo))
  | [], slots => .ok slots
  | c :: rest, slots =>
    if c.Index < 0 ∨ (n : Int) ≤ c.Index then .error (.invalidIndex c.Index)
    else placeChunks n rest (slots.set c.Index.toNat (some c))

/-- The second loop of `ReassembleFile`: read each slot's chunk from disk
and append its bytes to the output.  A `none` slot is a nil pointer in
Go: dereferencing it panics (`nilDeref`). -/
def readSlots (d : Disk) (fid : String) :
    List (Option ChunkInfo) → Except ReassembleError (List Nat)
  | [] => .ok []
  | none :: _ => .error .nilDeref
  | some c :: rest =>
    match readDisk d fid c.ID with
    | none => .error (.readFail c.ID)
    | some bytes => (readSlots d fid rest).map (fun tl => bytes ++ tl)

/-- `ReassembleFile` from `chunks.go`, returning the bytes written to the
output file (output-file creation itself is not modelled). -/
def ReassembleFile (d : Disk) (fileID : String) (chunks : List ChunkInfo) :
    Except ReassembleError (List Nat) :=
  (placeChunks chunks.length chunks
      (List.replicate chunks.length none)).bind
    (readSlots d fileID)

/-- `Message` from `p2p.go`: integer type discriminator plus opaque
payload bytes (`MsgType` stands for the Go field `Type`). -/
structure Message where
  MsgType : Nat
  Payload : List Nat
  deriving DecidableEq, Repr

/-- `io.ReadFull` of `n` bytes from a byte stream: succeeds returning the
bytes and the remainder exactly when the stream holds at least `n`
bytes; a short read or end-of-stream fails. -/
def readFull (n : Nat) (s : List Nat) : Option (List Nat × List Nat) :=
  if n ≤ s.length then some (s.take n, s.drop n) else none

/-- `binary.BigEndian.Uint32` over a 4-byte buffer. -/
def fromBE32 (l : List Nat) : Nat :=
  l.foldl (fun acc b => acc * 256 + b) 0

/-- `binary.BigEndian.PutUint32`: the 4-byte big-endian encoding written
by `Peer.Send`'s length prefix. -/
def toBE32 (n : Nat) : List Nat :=
  [n / 16777216 % 256, n / 65536 % 256, n / 256 % 256, n % 256]

/-- A framed message as it appears on the wire: 4-byte big-endian length
prefix followed by the payload bytes. -/
def mkFrame (payload : List Nat) : List Nat :=
  toBE32 payload.length ++ payload

/-- Observable events of one iteration of `handleConnection`'s read loop:
a message dispatched to its registered handler, a message whose type has
no handler (logged only), an envelope decode failure (logged, loop
continues), or loop exit (short read / EOF), which is when — and only
when — the deferred cleanup closes the socket and marks the peer
inactive. -/
inductive LoopEvent where
  | dispatched : Message → LoopEvent
  | noHandler : Nat → LoopEvent
  | decodeError : LoopEvent
  | connClosed : LoopEvent
  deriving DecidableEq, Repr

/-- The read loop of `handleConnection`, over the incoming byte stream.
`decode` abstracts `DecodeMessage` (JSON unmarshalling); `registered`
abstracts the handler table lookup.  Structural fuel: one unit per loop
iteration; each iteration consumes at least the 4 length-prefix bytes, so
the wrapper's fuel `stream.length + 1` is always sufficient and the
fuel-exhausted branch is unreachable. -/
def runLoopGo (decode : List Nat → Option Message) (registered : Nat → Bool) :
    Nat → List Nat → List LoopEvent
  | 0, _ => []
  | fuel + 1, stream =>
    match readFull 4 stream with
    | none => [.connClosed]
    | some (lenBuf, r1) =>
      match readFull (fromBE32 lenBuf) r1 with
      | none => [.connClosed]
      | some (payload, r2) =>
        (match decode payload with
         | none => LoopEvent.decodeError
         | some m =>
           if registered m.MsgType then .dispatched m
           else .noHandler m.MsgType) :: runLoopGo decode registered fuel r2

/-- `handleConnection`'s read loop on a byte stream, as the list of its
observable events. -/
def runLoop (decode : List Nat → Option Message) (registered : Nat → Bool)
    (stream : List Nat) : List LoopEvent :=
  runLoopGo decode registered (stream.length + 1) stream

/-- `Peer` from `p2p.go` (`Conn` becomes a non-nil flag). -/
structure Peer where
  ID : String
  Address : String
  Conn : Bool
  LastActive : Nat
  IsActive : Bool
  deriving DecidableEq, Repr

/-- The error of `DisconnectPeer` for an unknown peer id
(`"peer %s not found"`, the spec's NotFound kind). -/
inductive P2PErr where
  | peerNotFound : P2PErr
  deriving DecidableEq, Repr

/-- `DisconnectPeer` from `p2p.go`: scan the peer map for an entry whose
`ID` equals `peerID`; if found, remove it (keyed by its address); else
return the not-found error with the map unchanged.  The map is the
association list `address ↦ Peer`. -/
def DisconnectPeer (peers : List (String × Peer)) (peerID : String) :
    Except P2PErr Unit × List (String × Peer) :=
  match peers.find? (fun e => e.2.ID == peerID) with
  | some e => (.ok (), alErase peers e.2.Address)
  | none => (.error .peerNotFound, peers)

theorem selectPass_length (x : Node) (l : List Node) :
    (selectPass x l).2.length = l.length := by
  induction l generalizing x with
  | nil => simp [selectPass]
  | cons y ys ih =>
    by_cases h : availSpace x < availSpace y <;> simp [selectPass, h, ih]

theorem selectPass_perm (x : Node) (l : List Node) :
    List.Perm ((selectPass x l).1 :: (selectPass x l).2) (x :: l) := by
  induction l generalizing x with
  | nil => simp [selectPass]
  | cons y ys ih =>
    by_cases h : availSpace x < availSpace y
    · simp only [selectPass, if_pos h]
      exact (List.Perm.swap x (selectPass y ys).1 (selectPass y ys).2).trans
        ((ih y).cons x)
    · simp only [selectPass, if_neg h]
      exact ((List.Perm.swap y (selectPass x ys).1 (selectPass x ys).2).trans
        ((ih x).cons y)).trans (List.Perm.swap x y ys)

theorem selectPass_max (x : Node) (l : List Node) :
    availSpace x ≤ availSpace (selectPass x l).1 ∧
      ∀ z ∈ (selectPass x l).2, availSpace z ≤ availSpace (selectPass x l).1 := by
  induction l generalizing x with
  | nil => simp [selectPass]
  | cons y ys ih =>
    by_cases h : availSpace x < availSpace y
    · have := ih y
      simp only [selectPass, if_pos h]
      refine ⟨le_of_lt (lt_of_lt_of_le h this.1), ?_⟩
      intro z hz
      rcases List.mem_cons.1 hz with rfl | hz
      · exact le_of_lt (lt_of_lt_of_le h this.1)
      · exact this.2 z hz
    · have := ih x
      simp only [selectPass, if_neg h]
      refine ⟨this.1, ?_⟩
      intro z hz
      rcases List.mem_cons.1 hz with rfl | hz
      · exact le_trans (le_of_not_lt h) this.1
      · exact this.2 z hz

theorem exchangeSortGo_perm (fuel : Nat) (l : List Node)
    (hfuel : l.length ≤ fuel) : List.Perm (exchangeSortGo fuel l) l := by
  induction fuel generalizing l with
  | zero =>
    cases l with
    | nil => simp [exchangeSortGo]
    | cons x xs => simp at hfuel
  | succ fuel ih =>
    cases l with
    | nil => simp [exchangeSortGo]
    | cons x xs =>
      simp only [exchangeSortGo]
      have hlen : (selectPass x xs).2.length ≤ fuel := by
        rw [selectPass_length]
        simpa using Nat.le_of_succ_le_succ hfuel
      exact ((ih _ hlen).cons (selectPass x xs).1).trans (selectPass_perm x xs)

theorem exchangeSort_perm (l : List Node) : List.Perm (exchangeSort l) l :=
  exchangeSortGo_perm l.length l le_rfl

theorem exchangeSortGo_sorted (fuel : Nat) (l : List Node)
    (hfuel : l.length ≤ fuel) :
    (exchangeSortGo fuel l).Pairwise (fun a b => availSpace b ≤ availSpace a) := by
  induction fuel generalizing l with
  | zero =>
    cases l with
    | nil => simp [exchangeSortGo]
    | cons x xs => simp at hfuel
  | succ fuel ih =>
    cases l with
    | nil => simp [exchangeSortGo]
    | cons x xs =>
      simp only [exchangeSortGo]
      have hlen : (selectPass x xs).2.length ≤ fuel := by
        rw [selectPass_length]
        simpa using Nat.le_of_succ_le_succ hfuel
      refine List.pairwise_cons.2 ⟨?_, ih _ hlen⟩
      intro z hz
      have hz' : z ∈ (selectPass x xs).2 :=
        (exchangeSortGo_perm fuel _ hlen).mem_iff.1 hz
      exact (selectPass_max x xs).2 z hz'

theorem exchangeSort_sorted (l : List Node) :
    (exchangeSort l).Pairwise (fun a b => availSpace b ≤ availSpace a) :=
  exchangeSortGo_sorted l.length l le_rfl

theorem exchangeSort_length (l : List Node) :
    (exchangeSort l).length = l.length :=
  (exchangeSort_perm l).length_eq

/-- C5: `GetOptimalStorageNodes` filters nodes to status `"active"` with
`storageMax − storageUsed ≥ requiredSize`, ranks the eligible set by
descending free space, and returns the ids of the top
`min(replicaCount, eligibleCount)`; on the four-node example of the spec
(`free=5000` active, `free=0` active, `free=2000` failed, `free=3000`
active) a request for size 1000 with 3 replicas returns exactly the ids
of the `free=5000` and `free=3000` nodes, in that order. -/
theorem GetOptimalStorageNodes_correct :
    (∀ l : List Node,
        List.Perm (exchangeSort l) l ∧
        (exchangeSort l).Pairwise (fun a b => availSpace b ≤ availSpace a)) ∧
    (∀ (nodes : List Node) (fileSize replicaCount : Int),
        0 ≤ replicaCount →
        ∃ res, GetOptimalStorageNodes nodes fileSize replicaCount = some res ∧
          res = ((exchangeSort (nodes.filter (eligibleFor fileSize))).take
              (min replicaCount
                ((nodes.filter (eligibleFor fileSize)).length : Int)).toNat).map
              Node.ID ∧
          (res.length : Int) =
            min replicaCount
              ((nodes.filter (eligibleFor fileSize)).length : Int) ∧
          ∀ i ∈ res, ∃ n, n ∈ nodes ∧ n.Status = "active" ∧
            fileSize ≤ availSpace n ∧ n.ID = i) ∧
    GetOptimalStorageNodes
      [⟨"n1", "a1", "active", 0, 5000, 0⟩,
       ⟨"n2", "a2", "active", 7000, 7000, 0⟩,
       ⟨"n3", "a3", "failed", 0, 2000, 0⟩,
       ⟨"n4", "a4", "active", 1000, 4000, 0⟩] 1000 3 = some ["n1", "n4"] := by
  refine ⟨fun l => ⟨exchangeSort_perm l, exchangeSort_sorted l⟩, ?_, by decide⟩
  intro nodes fileSize replicaCount hrc
  set elig := nodes.filter (eligibleFor fileSize) with helig
  have hmin : 0 ≤ min replicaCount (elig.length : Int) :=
    le_min hrc (Int.natCast_nonneg _)
  have hif : ¬ min replicaCount (elig.length : Int) < 0 := not_lt.2 hmin
  refine ⟨_, ?_, rfl, ?_, ?_⟩
  · simp only [GetOptimalStorageNodes, ← helig, if_neg hif]
  · have hlen : (exchangeSort elig).length = elig.length := exchangeSort_length elig
    have htoNat : (min replicaCount (elig.length : Int)).toNat ≤ elig.length := by
      have h1 : min replicaCount (elig.length : Int) ≤ (elig.length : Int) :=
        min_le_right _ _
      omega
    rw [List.length_map, List.length_take, hlen]
    have : min (min replicaCount (elig.length : Int)).toNat elig.length =
        (min replicaCount (elig.length : Int)).toNat := min_eq_left htoNat
    rw [this]
    omega
  · intro i hi
    rcases List.mem_map.1 hi with ⟨n, hn, rfl⟩
    have hn' : n ∈ exchangeSort elig := List.mem_of_mem_take hn
    have hn'' : n ∈ elig := (exchangeSort_perm elig).mem_iff.1 hn'
    have hfil := List.mem_filter.1 hn''
    have helig' := hfil.2
    simp only [eligibleFor, Bool.and_eq_true, beq_iff_eq, decide_eq_true_eq] at helig'
    exact ⟨n, hfil.1, helig'.1, helig'.2, rfl⟩

/-- Witness for C5: the general part of the theorem instantiated on the
spec's four-node example with `replicaCount = 3 ≥ 0`. -/
theorem GetOptimalStorageNodes_correct_witness :
    (0 : Int) ≤ 3 ∧
    ∃ res, GetOptimalStorageNodes
        [⟨"n1", "a1", "active", 0, 5000, 0⟩,
         ⟨"n2", "a2", "active", 7000, 7000, 0⟩,
         ⟨"n3", "a3", "failed", 0, 2000, 0⟩,
         ⟨"n4", "a4", "active", 1000, 4000, 0⟩] 1000 3 = some res ∧
      res = ((exchangeSort
          (([⟨"n1", "a1", "active", 0, 5000, 0⟩,
             ⟨"n2", "a2", "active", 7000, 7000, 0⟩,
             ⟨"n3", "a3", "failed", 0, 2000, 0⟩,
             ⟨"n4", "a4", "active", 1000, 4000, 0⟩] : List Node).filter
            (eligibleFor 1000))).take
          (min 3
            ((([⟨"n1", "a1", "active", 0, 5000, 0⟩,
                ⟨"n2", "a2", "active", 7000, 7000, 0⟩,
                ⟨"n3", "a3", "failed", 0, 2000, 0⟩,
                ⟨"n4", "a4", "active", 1000, 4000, 0⟩] : List Node).filter
              (eligibleFor 1000)).length : Int)).toNat).map Node.ID ∧
      (res.length : Int) =
        min 3
          ((([⟨"n1", "a1", "active", 0, 5000, 0⟩,
              ⟨"n2", "a2", "active", 7000, 7000, 0⟩,
              ⟨"n3", "a3", "failed", 0, 2000, 0⟩,
              ⟨"n4", "a4", "active", 1000, 4000, 0⟩] : List Node).filter
            (eligibleFor 1000)).length : Int) ∧
      ∀ i ∈ res, ∃ n, n ∈
          ([⟨"n1", "a1", "active", 0, 5000, 0⟩,
            ⟨"n2", "a2", "active", 7000, 7000, 0⟩,
            ⟨"n3", "a3", "failed", 0, 2000, 0⟩,
            ⟨"n4", "a4", "active", 1000, 4000, 0⟩] : List Node) ∧
          n.Status = "active" ∧ (1000 : Int) ≤ availSpace n ∧ n.ID = i :=
  ⟨by decide, GetOptimalStorageNodes_correct.2.1 _ 1000 3 (by decide)⟩

/-- C10: for every registry state and `replicaCount < 0`,
`GetOptimalStorageNodes` panics (modelled `none`) when building the result
slice of negative length `min(replicaCount, eligibleCount)`, instead of
returning an empty list or an error. -/
theorem GetOptimalStorageNodes_negative_replicas_panics
    (nodes : List Node) (fileSize replicaCount : Int)
    (h : replicaCount < 0) :
    GetOptimalStorageNodes nodes fileSize replicaCount = none := by
  have : min replicaCount
      ((nodes.filter (eligibleFor fileSize)).length : Int) < 0 :=
    lt_of_le_of_lt (min_le_left _ _) h
  simp only [GetOptimalStorageNodes, if_pos this]

/-- Witness for C10: a negative replica count on a registry holding one
active node with plenty of space still panics. -/
theorem GetOptimalStorageNodes_negative_replicas_panics_witness :
    (-1 : Int) < 0 ∧
    GetOptimalStorageNodes [⟨"n1", "a1", "active", 0, 5000, 0⟩] 10 (-1) =
      none :=
  ⟨by decide,
   GetOptimalStorageNodes_negative_replicas_panics _ 10 (-1) (by decide)⟩

theorem alSet_all {α : Type} (p : String × α → Bool) (l : List (String × α))
    (k : String) (v : α) (hl : l.all p) (hv : p (k, v)) :
    (alSet l k v).all p := by
  induction l with
  | nil => simp [alSet, hv]
  | cons e t ih =>
    obtain ⟨k', v'⟩ := e
    rw [List.all_cons, Bool.and_eq_true] at hl
    by_cases h : (k' == k) = true
    · simp [alSet, h, hv, hl.2]
    · simp only [alSet]
      rw [if_neg (by simp [h])]
      simp [hl.1, ih hl.2]

theorem alErase_all {α : Type} (p : String × α → Bool) (l : List (String × α))
    (k : String) (hl : l.all p) : (alErase l k).all p := by
  induction l with
  | nil => simp [alErase]
  | cons e t ih =>
    obtain ⟨k', v'⟩ := e
    rw [List.all_cons, Bool.and_eq_true] at hl
    by_cases h : (k' == k) = true
    · simp [alErase, h, hl.2]
    · simp only [alErase]
      rw [if_neg (by simp [h])]
      simp [hl.1, ih hl.2]

theorem alLookup_mem {α : Type} {l : List (String × α)} {k : String} {v : α}
    (h : alLookup l k = some v) : (k, v) ∈ l := by
  induction l with
  | nil => simp [alLookup] at h
  | cons e t ih =>
    obtain ⟨k', v'⟩ := e
    by_cases hk : (k' == k) = true
    · rw [alLookup, if_pos hk] at h
      obtain rfl := Option.some_injective _ h
      have : k' = k := by simpa using hk
      subst this
      exact List.mem_cons_self _ _
    · rw [alLookup, if_neg (by simp_all)] at h
      exact List.mem_cons_of_mem _ (ih h)

theorem invariantB_eq_all (nm : NM) : invariantB nm = nm.nodes.all nodeOK := by
  rfl

/-- C6: for every address string the external `url.Parse` call rejects
(`parseOk address = false`), `RegisterNode` fails with `invalidInput`;
since only an error is returned, the caller's registry state is untouched
and no node is created. -/
theorem RegisterNode_bad_address_invalidInput
    (parseOk : String → Bool) (nm : NM) (id address : String)
    (storageMax : Int) (now : Nat) (h : parseOk address = false) :
    RegisterNode parseOk nm id address storageMax now = .error .invalidInput := by
  simp [RegisterNode, h]

/-- Witness for C6: a `parseOk` that rejects everything, on the empty
registry. -/
theorem RegisterNode_bad_address_invalidInput_witness :
    ((fun (_ : String) => false) "bad addr" = false) ∧
    RegisterNode (fun _ => false) NewNodeManager "n1" "bad addr" 100 0 =
      .error .invalidInput :=
  ⟨rfl,
   RegisterNode_bad_address_invalidInput (fun _ => false) NewNodeManager
     "n1" "bad addr" 100 0 rfl⟩

/-- C4: from an empty registry, `register(id, addrA, 100)` then
`register(id, addrB, 100)` updates the same node's address without
creating a duplicate node (the registry holds exactly one node, keyed by
`id`, now at `addrB`), and registering a different id with the address
currently owned by `id` fails with `conflict`. -/
theorem RegisterNode_upsert_then_conflict
    (parseOk : String → Bool) (id addrA addrB id2 : String) (now1 now2 : Nat)
    (hA : parseOk addrA = true) (hB : parseOk addrB = true)
    (hab : addrA ≠ addrB) (hid : id2 ≠ id) :
    ∃ s1 n1 s2 n2,
      RegisterNode parseOk NewNodeManager id addrA 100 now1 = .ok (s1, n1) ∧
      RegisterNode parseOk s1 id addrB 100 now2 = .ok (s2, n2) ∧
      s2.nodes = [(id, n2)] ∧ n2.ID = id ∧ n2.Address = addrB ∧
      ∀ (storageMax3 : Int) (now3 : Nat),
        RegisterNode parseOk s2 id2 addrB storageMax3 now3 = .error .conflict := by
  have hab' : (addrA == addrB) = false := by simp [hab]
  refine ⟨⟨[(id, ⟨id, addrA, "active", 0, 100, now1⟩)], [(addrA, id)]⟩,
          ⟨id, addrA, "active", 0, 100, now1⟩,
          ⟨[(id, ⟨id, addrB, "active", 0, 100, now2⟩)],
           [(addrA, id), (addrB, id)]⟩,
          ⟨id, addrB, "active", 0, 100, now2⟩, ?_, ?_, rfl, rfl, rfl, ?_⟩
  · simp [RegisterNode, RegisterNode.registerUpsert, NewNodeManager,
      alLookup, alSet, hA]
  · simp [RegisterNode, RegisterNode.registerUpsert, alLookup, alSet,
      hB, hab']
  · intro storageMax3 now3
    simp [RegisterNode, alLookup, hB, hab', hid.symm]

/-- Witness for C4: concrete ids and addresses. -/
theorem RegisterNode_upsert_then_conflict_witness :
    ((fun (_ : String) => true) "a" = true) ∧ ("a" : String) ≠ "b" ∧
    ("n2" : String) ≠ "n1" ∧
    ∃ s1 n1 s2 n2,
      RegisterNode (fun _ => true) NewNodeManager "n1" "a" 100 0 = .ok (s1, n1) ∧
      RegisterNode (fun _ => true) s1 "n1" "b" 100 1 = .ok (s2, n2) ∧
      s2.nodes = [("n1", n2)] ∧ n2.ID = "n1" ∧ n2.Address = "b" ∧
      ∀ (storageMax3 : Int) (now3 : Nat),
        RegisterNode (fun _ => true) s2 "n2" "b" storageMax3 now3 =
          .error .conflict :=
  ⟨rfl, by decide, by decide,
   RegisterNode_upsert_then_conflict (fun _ => true) "n1" "a" "b" "n2" 0 1
     rfl rfl (by decide) (by decide)⟩

/-- C9: re-registering an existing id under a new address leaves the old
address still bound to that id in the reverse `nodeAddrs` index;
`RemoveNode` deletes only the binding of the node's current address; and
afterwards registering a different id at the old address fails with
`conflict` although no current node holds it (the registry is empty). -/
theorem RegisterNode_stale_address_binding
    (parseOk : String → Bool) (id addrA addrB id2 : String)
    (now1 now2 now3 : Nat) (storageMax3 : Int)
    (hA : parseOk addrA = true) (hB : parseOk addrB = true)
    (hab : addrA ≠ addrB) (hid : id2 ≠ id) :
    ∃ s1 n1 s2 n2 s3,
      RegisterNode parseOk NewNodeManager id addrA 100 now1 = .ok (s1, n1) ∧
      RegisterNode parseOk s1 id addrB 100 now2 = .ok (s2, n2) ∧
      alLookup s2.nodeAddrs addrA = some id ∧
      RemoveNode s2 id = .ok s3 ∧
      s3.nodes = [] ∧
      alLookup s3.nodeAddrs addrA = some id ∧
      RegisterNode parseOk s3 id2 addrA storageMax3 now3 = .error .conflict := by
  have hab' : (addrA == addrB) = false := by simp [hab]
  have hba' : (addrB == addrA) = false := by simp [Ne.symm hab]
  refine ⟨⟨[(id, ⟨id, addrA, "active", 0, 100, now1⟩)], [(addrA, id)]⟩,
          ⟨id, addrA, "active", 0, 100, now1⟩,
          ⟨[(id, ⟨id, addrB, "active", 0, 100, now2⟩)],
           [(addrA, id), (addrB, id)]⟩,
          ⟨id, addrB, "active", 0, 100, now2⟩,
          ⟨[], [(addrA, id)]⟩, ?_, ?_, ?_, ?_, rfl, ?_, ?_⟩
  · simp [RegisterNode, RegisterNode.registerUpsert, NewNodeManager,
      alLookup, alSet, hA]
  · simp [RegisterNode, RegisterNode.registerUpsert, alLookup, alSet,
      hB, hab']
  · simp [alLookup]
  · simp [RemoveNode, alLookup, alErase, hba']
    exact fun h => h.symm
  · simp [alLookup]
  · simp [RegisterNode, alLookup, hA, hid.symm]

/-- Witness for C9: concrete ids and addresses. -/
theorem RegisterNode_stale_address_binding_witness :
    ("a" : String) ≠ "b" ∧ ("n2" : String) ≠ "n1" ∧
    ∃ s1 n1 s2 n2 s3,
      RegisterNode (fun _ => true) NewNodeManager "n1" "a" 100 0 = .ok (s1, n1) ∧
      RegisterNode (fun _ => true) s1 "n1" "b" 100 1 = .ok (s2, n2) ∧
      alLookup s2.nodeAddrs "a" = some "n1" ∧
      RemoveNode s2 "n1" = .ok s3 ∧
      s3.nodes = [] ∧
      alLookup s3.nodeAddrs "a" = some "n1" ∧
      RegisterNode (fun _ => true) s3 "n2" "a" 100 2 = .error .conflict :=
  ⟨by decide, by decide,
   RegisterNode_stale_address_binding (fun _ => true) "n1" "a" "b" "n2" 0 1 2
     100 rfl rfl (by decide) (by decide)⟩

theorem HeartbeatNode_some {nm : NM} {id : String} {n : Node} (now : Nat)
    (h : alLookup nm.nodes id = some n) :
    HeartbeatNode nm id now =
      .ok ⟨alSet nm.nodes id { n with LastSeen := now }, nm.nodeAddrs⟩ := by
  rw [HeartbeatNode, h]

theorem UpdateNodeStatus_some {nm : NM} {id : String} {n : Node}
    (status : String) (now : Nat) (h : alLookup nm.nodes id = some n) :
    UpdateNodeStatus nm id status now =
      if status ≠ "active" ∧ status ≠ "inactive" ∧ status ≠ "failed" then
        .error .invalidInput
      else
        .ok ⟨alSet nm.nodes id { n with Status := status, LastSeen := now },
             nm.nodeAddrs⟩ := by
  rw [UpdateNodeStatus, h]

theorem UpdateNodeStorage_some {nm : NM} {id : String} {n : Node}
    (used : Int) (now : Nat) (h : alLookup nm.nodes id = some n) :
    UpdateNodeStorage nm id used now =
      if used < 0 then .error .invalidInput
      else if n.StorageMax < used then .error .invalidInput
      else
        .ok ⟨alSet nm.nodes id
               { n with StorageUsed := used, LastSeen := now },
             nm.nodeAddrs⟩ := by
  rw [UpdateNodeStorage, h]

theorem RemoveNode_some {nm : NM} {id : String} {n : Node}
    (h : alLookup nm.nodes id = some n) :
    RemoveNode nm id =
      .ok ⟨alErase nm.nodes id, alErase nm.nodeAddrs n.Address⟩ := by
  rw [RemoveNode, h]

theorem RegisterNode_addr_none {parseOk : String → Bool} {nm : NM}
    {id address : String} (storageMax : Int) (now : Nat)
    (hp : parseOk address = true)
    (h : alLookup nm.nodeAddrs address = none) :
    RegisterNode parseOk nm id address storageMax now =
      RegisterNode.registerUpsert nm id address storageMax now := by
  rw [RegisterNode, if_neg (by simp [hp]), h]

theorem RegisterNode_addr_some {parseOk : String → Bool} {nm : NM}
    {id address existingID : String} (storageMax : Int) (now : Nat)
    (hp : parseOk address = true)
    (h : alLookup nm.nodeAddrs address = some existingID) :
    RegisterNode parseOk nm id address storageMax now =
      if existingID ≠ id then .error .conflict
      else RegisterNode.registerUpsert nm id address storageMax now := by
  rw [RegisterNode, if_neg (by simp [hp]), h]

theorem registerUpsert_none {nm : NM} {id : String} (address : String)
    (storageMax : Int) (now : Nat) (h : alLookup nm.nodes id = none) :
    RegisterNode.registerUpsert nm id address storageMax now =
      .ok (⟨alSet nm.nodes id ⟨id, address, "active", 0, storageMax, now⟩,
            alSet nm.nodeAddrs address id⟩,
           ⟨id, address, "active", 0, storageMax, now⟩) := by
  rw [RegisterNode.registerUpsert, h]

theorem registerUpsert_some {nm : NM} {id : String} {n : Node}
    (address : String) (storageMax : Int) (now : Nat)
    (h : alLookup nm.nodes id = some n) :
    RegisterNode.registerUpsert nm id address storageMax now =
      .ok (⟨alSet nm.nodes id
              { n with Address := address, Status := "active",
                       StorageMax := storageMax, LastSeen := now },
            alSet nm.nodeAddrs address id⟩,
           { n with Address := address, Status := "active",
                    StorageMax := storageMax, LastSeen := now }) := by
  rw [RegisterNode.registerUpsert, h]

/-- Counterexample to C3: `RegisterNode` on an existing id overwrites
`StorageMax` but keeps `StorageUsed`, so `register(n1,a,100)`,
`setStorageUsed(n1,50)`, `register(n1,b,10)` ends with a node whose
`StorageUsed = 50` exceeds `StorageMax = 10`: the invariant
`0 ≤ storageUsed ≤ storageMax` is not preserved by re-registration. -/
theorem RegisterNode_breaks_invariant_cex :
    RegisterNode (fun _ => true) NewNodeManager "n1" "a" 100 0 =
      .ok (⟨[("n1", ⟨"n1", "a", "active", 0, 100, 0⟩)], [("a", "n1")]⟩,
           ⟨"n1", "a", "active", 0, 100, 0⟩) ∧
    UpdateNodeStorage
        ⟨[("n1", ⟨"n1", "a", "active", 0, 100, 0⟩)], [("a", "n1")]⟩
        "n1" 50 1 =
      .ok ⟨[("n1", ⟨"n1", "a", "active", 50, 100, 1⟩)], [("a", "n1")]⟩ ∧
    RegisterNode (fun _ => true)
        ⟨[("n1", ⟨"n1", "a", "active", 50, 100, 1⟩)], [("a", "n1")]⟩
        "n1" "b" 10 2 =
      .ok (⟨[("n1", ⟨"n1", "b", "active", 50, 10, 2⟩)],
            [("a", "n1"), ("b", "n1")]⟩,
           ⟨"n1", "b", "active", 50, 10, 2⟩) ∧
    invariantB ⟨[("n1", ⟨"n1", "b", "active", 50, 10, 2⟩)],
                [("a", "n1"), ("b", "n1")]⟩ = false :=
  ⟨rfl, rfl, rfl, by decide⟩

/-- C3 as amended: `HeartbeatNode`, `UpdateNodeStatus`,
`UpdateNodeStorage` and `RemoveNode` preserve the invariant
`0 ≤ storageUsed ≤ storageMax` unconditionally; `RegisterNode` preserves
it only under the extra conditions that the supplied `storageMax` is
nonnegative and at least the node's current `storageUsed` when the id
already exists — without them re-registration can violate the invariant
(see the counterexample). -/
theorem registry_ops_preserve_invariant :
    (∀ (nm : NM) (id : String) (now : Nat) (s' : NM),
        invariantB nm = true → HeartbeatNode nm id now = .ok s' →
        invariantB s' = true) ∧
    (∀ (nm : NM) (id status : String) (now : Nat) (s' : NM),
        invariantB nm = true → UpdateNodeStatus nm id status now = .ok s' →
        invariantB s' = true) ∧
    (∀ (nm : NM) (id : String) (used : Int) (now : Nat) (s' : NM),
        invariantB nm = true → UpdateNodeStorage nm id used now = .ok s' →
        invariantB s' = true) ∧
    (∀ (nm : NM) (id : String) (s' : NM),
        invariantB nm = true → RemoveNode nm id = .ok s' →
        invariantB s' = true) ∧
    (∀ (parseOk : String → Bool) (nm : NM) (id address : String)
        (storageMax : Int) (now : Nat) (s' : NM) (n' : Node),
        invariantB nm = true → 0 ≤ storageMax →
        (∀ m, alLookup nm.nodes id = some m → m.StorageUsed ≤ storageMax) →
        RegisterNode parseOk nm id address storageMax now = .ok (s', n') →
        invariantB s' = true) := by
  refine ⟨?_, ?_, ?_, ?_, ?_⟩
  · intro nm id now s' hinv hok
    cases hlook : alLookup nm.nodes id with
    | none => rw [HeartbeatNode, hlook] at hok; cases hok
    | some n =>
      rw [HeartbeatNode_some now hlook] at hok
      obtain rfl : _ = s' := by injection hok
      have hn : nodeOK (id, n) = true :=
        List.all_eq_true.1 ((invariantB_eq_all nm) ▸ hinv) _
          (alLookup_mem hlook)
      rw [invariantB_eq_all]
      refine alSet_all nodeOK nm.nodes id _ ((invariantB_eq_all nm) ▸ hinv) ?_
      simpa [nodeOK] using hn
  · intro nm id status now s' hinv hok
    cases hlook : alLookup nm.nodes id with
    | none => rw [UpdateNodeStatus, hlook] at hok; cases hok
    | some n =>
      rw [UpdateNodeStatus_some status now hlook] at hok
      by_cases hst : status ≠ "active" ∧ status ≠ "inactive" ∧ status ≠ "failed"
      · rw [if_pos hst] at hok; cases hok
      · rw [if_neg hst] at hok
        obtain rfl : _ = s' := by injection hok
        have hn : nodeOK (id, n) = true :=
          List.all_eq_true.1 ((invariantB_eq_all nm) ▸ hinv) _
            (alLookup_mem hlook)
        rw [invariantB_eq_all]
        refine alSet_all nodeOK nm.nodes id _ ((invariantB_eq_all nm) ▸ hinv) ?_
        simpa [nodeOK] using hn
  · intro nm id used now s' hinv hok
    cases hlook : alLookup nm.nodes id with
    | none => rw [UpdateNodeStorage, hlook] at hok; cases hok
    | some n =>
      rw [UpdateNodeStorage_some used now hlook] at hok
      by_cases hneg : used < 0
      · rw [if_pos hneg] at hok; cases hok
      · rw [if_neg hneg] at hok
        by_cases hover : n.StorageMax < used
        · rw [if_pos hover] at hok; cases hok
        · rw [if_neg hover] at hok
          obtain rfl : _ = s' := by injection hok
          rw [invariantB_eq_all]
          refine alSet_all nodeOK nm.nodes id _ ((invariantB_eq_all nm) ▸ hinv) ?_
          simp only [nodeOK, decide_eq_true_eq]
          exact ⟨not_lt.1 hneg, not_lt.1 hover⟩
  · intro nm id s' hinv hok
    cases hlook : alLookup nm.nodes id with
    | none => rw [RemoveNode, hlook] at hok; cases hok
    | some n =>
      rw [RemoveNode_some hlook] at hok
      obtain rfl : _ = s' := by injection hok
      rw [invariantB_eq_all]
      exact alErase_all nodeOK nm.nodes id ((invariantB_eq_all nm) ▸ hinv)
  · intro parseOk nm id address storageMax now s' n' hinv hmax hused hok
    by_cases hparse : parseOk address
    · have hup : RegisterNode.registerUpsert nm id address storageMax now =
          .ok (s', n') := by
        cases haddr : alLookup nm.nodeAddrs address with
        | none => rw [RegisterNode_addr_none storageMax now hparse haddr] at hok; exact hok
        | some existingID =>
          rw [RegisterNode_addr_some storageMax now hparse haddr] at hok
          by_cases hne : existingID ≠ id
          · rw [if_pos hne] at hok; cases hok
          · rw [if_neg hne] at hok; exact hok
      cases hlook : alLookup nm.nodes id with
      | none =>
        rw [registerUpsert_none address storageMax now hlook] at hup
        obtain ⟨h1, h2⟩ : _ ∧ _ := by
          injection hup with h
          injection h with h1 h2
          exact ⟨h1, h2⟩
        subst h1
        rw [invariantB_eq_all]
        refine alSet_all nodeOK nm.nodes id _ ((invariantB_eq_all nm) ▸ hinv) ?_
        simp only [nodeOK, decide_eq_true_eq]
        exact ⟨le_refl 0, hmax⟩
      | some n =>
        rw [registerUpsert_some address storageMax now hlook] at hup
        obtain ⟨h1, h2⟩ : _ ∧ _ := by
          injection hup with h
          injection h with h1 h2
          exact ⟨h1, h2⟩
        subst h1
        have hn : nodeOK (id, n) = true :=
          List.all_eq_true.1 ((invariantB_eq_all nm) ▸ hinv) _
            (alLookup_mem hlook)
        rw [invariantB_eq_all]
        refine alSet_all nodeOK nm.nodes id _ ((invariantB_eq_all nm) ▸ hinv) ?_
        simp only [nodeOK, decide_eq_true_eq] at hn ⊢
        exact ⟨hn.1, hused n hlook⟩
    · rw [RegisterNode, if_pos (by simpa using hparse)] at hok
      cases hok

/-- Witness for the amended C3: all five operations applied on a concrete
one-node registry, with every hypothesis discharged concretely. -/
theorem registry_ops_preserve_invariant_witness :
    invariantB ⟨[("n1", ⟨"n1", "a", "active", 0, 100, 7⟩)], [("a", "n1")]⟩ =
      true ∧
    invariantB ⟨[("n1", ⟨"n1", "a", "failed", 0, 100, 7⟩)], [("a", "n1")]⟩ =
      true ∧
    invariantB ⟨[("n1", ⟨"n1", "a", "active", 60, 100, 7⟩)], [("a", "n1")]⟩ =
      true ∧
    invariantB (⟨[], []⟩ : NM) = true ∧
    invariantB ⟨[("n1", ⟨"n1", "b", "active", 0, 5, 7⟩)],
                [("a", "n1"), ("b", "n1")]⟩ = true := by
  refine ⟨?_, ?_, ?_, ?_, ?_⟩
  · exact registry_ops_preserve_invariant.1
      ⟨[("n1", ⟨"n1", "a", "active", 0, 100, 0⟩)], [("a", "n1")]⟩
      "n1" 7 _ (by decide) rfl
  · exact registry_ops_preserve_invariant.2.1
      ⟨[("n1", ⟨"n1", "a", "active", 0, 100, 0⟩)], [("a", "n1")]⟩
      "n1" "failed" 7 _ (by decide) rfl
  · exact registry_ops_preserve_invariant.2.2.1
      ⟨[("n1", ⟨"n1", "a", "active", 0, 100, 0⟩)], [("a", "n1")]⟩
      "n1" 60 7 _ (by decide) rfl
  · exact registry_ops_preserve_invariant.2.2.2.1
      ⟨[("n1", ⟨"n1", "a", "active", 0, 100, 0⟩)], [("a", "n1")]⟩
      "n1" _ (by decide) rfl
  · exact registry_ops_preserve_invariant.2.2.2.2 (fun _ => true)
      ⟨[("n1", ⟨"n1", "a", "active", 0, 100, 0⟩)], [("a", "n1")]⟩
      "n1" "b" 5 7 _ _ (by decide) (by decide)
      (fun m hm => by
        simp [alLookup] at hm
        subst hm
        decide) rfl

theorem chunksOfGo_join (chunkSize : Nat) (hcs : 0 < chunkSize) :
    ∀ (fuel : Nat) (content : List Nat), content.length ≤ fuel →
      (chunksOfGo fuel chunkSize content).flatten = content := by
  intro fuel
  induction fuel with
  | zero =>
    intro content hlen
    cases content with
    | nil => simp [chunksOfGo]
    | cons x xs => simp at hlen
  | succ fuel ih =>
    intro content hlen
    cases content with
    | nil => simp [chunksOfGo]
    | cons x xs =>
      simp only [chunksOfGo, List.flatten_cons]
      have hd : ((x :: xs).drop chunkSize).length ≤ fuel := by
        simp only [List.length_drop, List.length_cons] at hlen ⊢
        omega
      rw [ih ((x :: xs).drop chunkSize) hd]
      exact List.take_append_drop chunkSize (x :: xs)

theorem chunksOf_join (chunkSize : Nat) (content : List Nat)
    (hcs : 0 < chunkSize) : (chunksOf chunkSize content).flatten = content :=
  chunksOfGo_join chunkSize hcs content.length content le_rfl

theorem writeChunks_eq (hash : List Nat → String) (fid : String) :
    ∀ (pieces : List (List Nat)) (d : Disk),
      writeChunks hash fid d pieces =
        (pieces.reverse.map (fun q => (fid, hash q, q))) ++ d := by
  intro pieces
  induction pieces with
  | nil => intro d; simp [writeChunks]
  | cons p ps ih =>
    intro d
    show writeChunks hash fid (writeDisk d fid (hash p) p) ps = _
    rw [ih]
    simp [writeDisk]

theorem readDisk_entries (hash : List Nat → String) (fid : String)
    (d0 : Disk) :
    ∀ (m : List (List Nat)) (p : List Nat),
      (∃ q ∈ m, hash q = hash p) →
      (∀ q ∈ m, hash q = hash p → q = p) →
      readDisk (m.map (fun q => (fid, hash q, q)) ++ d0) fid (hash p) =
        some p := by
  intro m
  induction m with
  | nil => intro p hex _; simp at hex
  | cons q0 m' ih =>
    intro p hex huniq
    by_cases hq : hash q0 = hash p
    · have hq0 : q0 = p := huniq q0 (List.mem_cons_self _ _) hq
      subst hq0
      simp [readDisk, List.find?_cons_of_pos, hq]
    · have hpred : ((fid, hash q0, q0).1 == fid &&
          (fid, hash q0, q0).2.1 == hash p) = false := by
        simp [hq]
      simp only [List.map_cons, List.cons_append]
      rw [readDisk, List.find?_cons_of_neg _ (by simp [hq]), ← readDisk]
      have hex' : ∃ q ∈ m', hash q = hash p := by
        rcases hex with ⟨q, hqm, hqh⟩
        rcases List.mem_cons.1 hqm with rfl | hqm'
        · exact absurd hqh hq
        · exact ⟨q, hqm', hqh⟩
      exact ih p hex' (fun q hqm hqh => huniq q (List.mem_cons_of_mem _ hqm) hqh)

theorem readDisk_writeChunks (hash : List Nat → String) (fid : String)
    (d : Disk) (pieces : List (List Nat)) (p : List Nat)
    (hp : p ∈ pieces)
    (huniq : ∀ q ∈ pieces, hash q = hash p → q = p) :
    readDisk (writeChunks hash fid d pieces) fid (hash p) = some p := by
  rw [writeChunks_eq]
  exact readDisk_entries hash fid d pieces.reverse p
    ⟨p, List.mem_reverse.2 hp, rfl⟩
    (fun q hq hqh => huniq q (List.mem_reverse.1 hq) hqh)

theorem mkChunkInfos_length (hash : List Nat → String) (fid : String) :
    ∀ (index : Nat) (ps : List (List Nat)),
      (mkChunkInfos hash fid index ps).length = ps.length := by
  intro index ps
  induction ps generalizing index with
  | nil => simp [mkChunkInfos]
  | cons p rest ih => simp [mkChunkInfos, ih]

theorem set_append_cons {α : Type} (l : List α) (x y : α) (t : List α) :
    (l ++ x :: t).set l.length y = l ++ y :: t := by
  induction l with
  | nil => simp
  | cons a l' ih => simp [List.set, ih]

theorem place_dense (hash : List Nat → String) (fid : String) :
    ∀ (ps : List (List Nat)) (done : List (Option ChunkInfo)),
      placeChunks (done.length + ps.length)
          (mkChunkInfos hash fid done.length ps)
          (done ++ List.replicate ps.length none) =
        .ok (done ++ (mkChunkInfos hash fid done.length ps).map some) := by
  intro ps
  induction ps with
  | nil => intro done; simp [mkChunkInfos, placeChunks]
  | cons p ps' ih =>
    intro done
    simp only [mkChunkInfos, placeChunks, List.length_cons, List.replicate_succ]
    rw [if_neg (by push_cast; omega)]
    rw [Int.toNat_natCast, set_append_cons]
    have h1 : done ++ some (⟨hash p, (done.length : Int), p.length, fid, ""⟩ :
          ChunkInfo) :: List.replicate ps'.length none =
        (done ++ [some ⟨hash p, (done.length : Int), p.length, fid, ""⟩]) ++
          List.replicate ps'.length none := by
      simp
    rw [h1]
    have h2 : done.length + (ps'.length + 1) =
        (done ++ [some (⟨hash p, (done.length : Int), p.length, fid, ""⟩ :
          ChunkInfo)]).length + ps'.length := by
      simp only [List.length_append, List.length_cons, List.length_nil]
      omega
    rw [h2]
    have h3 : done.length + 1 =
        (done ++ [some (⟨hash p, (done.length : Int), p.length, fid, ""⟩ :
          ChunkInfo)]).length := by
      simp
    rw [h3, ih]
    simp

theorem readSlots_map_some (d : Disk) (fid : String)
    (hash : List Nat → String) :
    ∀ (ps : List (List Nat)) (index : Nat),
      (∀ p ∈ ps, readDisk d fid (hash p) = some p) →
      readSlots d fid ((mkChunkInfos hash fid index ps).map some) =
        .ok ps.flatten := by
  intro ps
  induction ps with
  | nil => intro index _; simp [mkChunkInfos, readSlots]
  | cons p ps' ih =>
    intro index hread
    simp only [mkChunkInfos, List.map_cons, readSlots]
    rw [hread p (List.mem_cons_self _ _),
        ih (index + 1) (fun q hq => hread q (List.mem_cons_of_mem _ hq))]
    simp [Except.map]

theorem mkChunkInfos_mem (hash : List Nat → String) (fid : String) :
    ∀ (ps : List (List Nat)) (index : Nat) (c : ChunkInfo),
      c ∈ mkChunkInfos hash fid index ps → ∃ p ∈ ps, c.ID = hash p := by
  intro ps
  induction ps with
  | nil => intro index c hc; simp [mkChunkInfos] at hc
  | cons p ps' ih =>
    intro index c hc
    rw [mkChunkInfos] at hc
    rcases List.mem_cons.1 hc with rfl | hc'
    · exact ⟨p, List.mem_cons_self _ _, rfl⟩
    · rcases ih (index + 1) c hc' with ⟨q, hq, hqh⟩
      exact ⟨q, List.mem_cons_of_mem _ hq, hqh⟩

/-- C1: for every file content, every chunk size in `(0, 1MiB]` and any
prior disk contents, reassembling the chunks produced by `ChunkFile` with
`ReassembleFile` returns exactly the original byte stream; the chunks
concatenated in index order reproduce the original bytes, and each
chunk's id is the hash of that chunk's own bytes (which is what the
chunk's file on disk holds).  The hash is only assumed collision-free on
the pieces of this file — the content-addressing assumption the code
makes of SHA-256. -/
theorem ChunkFile_ReassembleFile_roundtrip
    (hash : List Nat → String) (chunkSize : Nat) (content : List Nat)
    (d : Disk) (hcs : 0 < chunkSize) (hcsMax : chunkSize ≤ 1048576)
    (hcoll : ∀ p ∈ chunksOf chunkSize content,
        ∀ q ∈ chunksOf chunkSize content, hash p = hash q → p = q) :
    (chunksOf chunkSize content).flatten = content ∧
    ReassembleFile (ChunkFile hash chunkSize content d).2.2
        (ChunkFile hash chunkSize content d).1
        (ChunkFile hash chunkSize content d).2.1 = .ok content ∧
    ∀ c ∈ (ChunkFile hash chunkSize content d).2.1,
      ∃ p ∈ chunksOf chunkSize content,
        c.ID = hash p ∧
        readDisk (ChunkFile hash chunkSize content d).2.2
          (ChunkFile hash chunkSize content d).1 c.ID = some p := by
  have hjoin := chunksOf_join chunkSize content hcs
  have hread : ∀ p ∈ chunksOf chunkSize content,
      readDisk (writeChunks hash (hash content) d (chunksOf chunkSize content))
        (hash content) (hash p) = some p := by
    intro p hp
    exact readDisk_writeChunks hash (hash content) d _ p hp
      (fun q hq hqh => hcoll q hq p hp hqh)
  refine ⟨hjoin, ?_, ?_⟩
  · show (placeChunks (mkChunkInfos hash (hash content) 0
          (chunksOf chunkSize content)).length
        (mkChunkInfos hash (hash content) 0 (chunksOf chunkSize content))
        (List.replicate (mkChunkInfos hash (hash content) 0
          (chunksOf chunkSize content)).length none)).bind
      (readSlots (writeChunks hash (hash content) d (chunksOf chunkSize content))
        (hash content)) = .ok content
    rw [mkChunkInfos_length]
    have hplace := place_dense hash (hash content) (chunksOf chunkSize content)
      ([] : List (Option ChunkInfo))
    simp only [List.length_nil, List.nil_append, Nat.zero_add] at hplace
    rw [hplace]
    show readSlots _ _ ((mkChunkInfos hash (hash content) 0
        (chunksOf chunkSize content)).map some) = .ok content
    rw [readSlots_map_some _ _ hash (chunksOf chunkSize content) 0 hread,
        hjoin]
  · intro c hc
    rcases mkChunkInfos_mem hash (hash content) (chunksOf chunkSize content)
      0 c hc with ⟨p, hp, hid⟩
    exact ⟨p, hp, hid, by rw [hid]; exact hread p hp⟩

/-- Witness for C1: content `[1, 2, 3]`, chunk size 2, a decimal-string
hash that is collision-free on the two pieces. -/
theorem ChunkFile_ReassembleFile_roundtrip_witness :
    (0 < 2 ∧ 2 ≤ 1048576 ∧
      ∀ p ∈ chunksOf 2 [1, 2, 3], ∀ q ∈ chunksOf 2 [1, 2, 3],
        (toString p = toString q) → p = q) ∧
    (chunksOf 2 [1, 2, 3]).flatten = [1, 2, 3] ∧
    ReassembleFile (ChunkFile (fun l => toString l) 2 [1, 2, 3] []).2.2
        (ChunkFile (fun l => toString l) 2 [1, 2, 3] []).1
        (ChunkFile (fun l => toString l) 2 [1, 2, 3] []).2.1 =
      .ok [1, 2, 3] ∧
    ∀ c ∈ (ChunkFile (fun l => toString l) 2 [1, 2, 3] []).2.1,
      ∃ p ∈ chunksOf 2 [1, 2, 3],
        c.ID = (fun l => toString l) p ∧
        readDisk (ChunkFile (fun l => toString l) 2 [1, 2, 3] []).2.2
          (ChunkFile (fun l => toString l) 2 [1, 2, 3] []).1 c.ID = some p :=
  ⟨⟨by decide, by decide, by decide⟩,
   ChunkFile_ReassembleFile_roundtrip (fun l => toString l) 2 [1, 2, 3] []
     (by decide) (by decide) (by decide)⟩

theorem placeChunks_oob :
    ∀ (chunks : List ChunkInfo) (slots : List (Option ChunkInfo)) (n : Nat),
      (∃ c ∈ chunks, c.Index < 0 ∨ (n : Int) ≤ c.Index) →
      ∃ i, placeChunks n chunks slots = .error (.invalidIndex i) := by
  intro chunks
  induction chunks with
  | nil => intro slots n hex; simp at hex
  | cons c rest ih =>
    intro slots n hex
    by_cases hc : c.Index < 0 ∨ (n : Int) ≤ c.Index
    · exact ⟨c.Index, by rw [placeChunks, if_pos hc]⟩
    · rw [placeChunks, if_neg hc]
      rcases hex with ⟨c', hc', hoob⟩
      rcases List.mem_cons.1 hc' with rfl | hmem
      · exact absurd hoob hc
      · exact ih _ n ⟨c', hmem, hoob⟩

theorem placeChunks_inrange :
    ∀ (chunks : List ChunkInfo) (slots : List (Option ChunkInfo)) (n : Nat),
      (∀ c ∈ chunks, 0 ≤ c.Index ∧ c.Index < (n : Int)) →
      placeChunks n chunks slots =
        .ok (chunks.foldl (fun a c => a.set c.Index.toNat (some c)) slots) := by
  intro chunks
  induction chunks with
  | nil => intro slots n _; simp [placeChunks]
  | cons c rest ih =>
    intro slots n hin
    have hc := hin c (List.mem_cons_self _ _)
    rw [placeChunks, if_neg (by omega)]
    rw [ih _ n (fun c' hc' => hin c' (List.mem_cons_of_mem _ hc'))]
    rfl

theorem readSlots_ok_no_none (d : Disk) (fid : String) :
    ∀ (slots : List (Option ChunkInfo)) (bytes : List Nat),
      readSlots d fid slots = .ok bytes → ∀ s ∈ slots, s ≠ none := by
  intro slots
  induction slots with
  | nil => intro bytes _ s hs; simp at hs
  | cons s0 rest ih =>
    intro bytes hok s hs
    cases s0 with
    | none => rw [readSlots] at hok; cases hok
    | some c =>
      rw [readSlots] at hok
      cases hrd : readDisk d fid c.ID with
      | none => rw [hrd] at hok; cases hok
      | some b =>
        rw [hrd] at hok
        cases hrs : readSlots d fid rest with
        | error e => rw [hrs] at hok; cases hok
        | ok tl =>
          rcases List.mem_cons.1 hs with rfl | hs'
          · exact fun h => Option.noConfusion h
          · exact ih tl hrs s hs'

theorem foldl_set_length (chunks : List ChunkInfo) :
    ∀ (slots : List (Option ChunkInfo)),
      (chunks.foldl (fun a c => a.set c.Index.toNat (some c)) slots).length =
        slots.length := by
  induction chunks with
  | nil => intro slots; rfl
  | cons c rest ih =>
    intro slots
    show (rest.foldl _ (slots.set c.Index.toNat (some c))).length = _
    rw [ih]
    exact List.length_set slots _ _

theorem foldl_set_filled (chunks : List ChunkInfo) :
    ∀ (slots : List (Option ChunkInfo)) (i : Nat),
      (chunks.foldl (fun a c => a.set c.Index.toNat (some c)) slots).get? i ≠
        some none →
      slots.get? i ≠ some none ∨ ∃ c ∈ chunks, c.Index.toNat = i := by
  induction chunks with
  | nil => intro slots i h; exact .inl h
  | cons c rest ih =>
    intro slots i h
    have h' := ih (slots.set c.Index.toNat (some c)) i h
    rcases h' with h' | ⟨c', hc', hi⟩
    · by_cases hidx : c.Index.toNat = i
      · exact .inr ⟨c, List.mem_cons_self _ _, hidx⟩
      · rw [List.get?_set_ne _ _ hidx] at h'
        exact .inl h'
    · exact .inr ⟨c', List.mem_cons_of_mem _ hc', hi⟩

theorem indices_nodup_of_filled (chunks : List ChunkInfo)
    (hfill : ∀ i < chunks.length, ∃ c ∈ chunks, c.Index.toNat = i) :
    (chunks.map (fun c => c.Index.toNat)).Nodup := by
  set idxs := chunks.map (fun c => c.Index.toNat) with hidxs
  have hsub : List.range chunks.length ⊆ idxs := by
    intro i hi
    rw [List.mem_range] at hi
    rcases hfill i hi with ⟨c, hc, hci⟩
    rw [hidxs]
    exact List.mem_map.2 ⟨c, hc, hci⟩
  have hlen : idxs.length = chunks.length := by simp [hidxs]
  have hsp : (List.range chunks.length).Subperm idxs :=
    (List.nodup_range chunks.length).subperm hsub
  have hperm : (List.range chunks.length).Perm idxs :=
    hsp.perm_of_length_le (by simp [hlen])
  exact hperm.nodup (List.nodup_range chunks.length)

/-- Counterexample to C2: two chunks with the duplicated in-range index 0
(`N = 2`, both indices in `[0, 2)`) pass the bounds check, leave slot 1
unfilled, and `ReassembleFile` hits the nil chunk pointer — a runtime
panic (`nilDeref`), not an `invalidIndex` (InvalidInput) failure. -/
theorem ReassembleFile_dup_index_cex :
    ReassembleFile [("f", "a", [7]), ("f", "b", [8])] "f"
        [⟨"a", 0, 1, "f", ""⟩, ⟨"b", 0, 1, "f", ""⟩] = .error .nilDeref ∧
    ReassembleFile [("f", "a", [7]), ("f", "b", [8])] "f"
        [⟨"a", 0, 1, "f", ""⟩, ⟨"b", 0, 1, "f", ""⟩] ≠
      .error (.invalidIndex 0) :=
  ⟨rfl, fun h => by cases h⟩

/-- C2 as amended: any chunk whose index lies outside `[0, N)` makes
`ReassembleFile` fail with the InvalidInput error `invalidIndex`; but an
input whose indices are all in range while some index repeats is *not*
rejected with InvalidInput — the bounds check passes, some slot of
`sortedChunks` is never filled, and the output loop dereferences a nil
chunk pointer (a runtime panic, `nilDeref`); no reassembled output is
ever produced in that case. -/
theorem ReassembleFile_index_errors :
    (∀ (d : Disk) (fid : String) (chunks : List ChunkInfo),
        (∃ c ∈ chunks, c.Index < 0 ∨ (chunks.length : Int) ≤ c.Index) →
        ∃ i, ReassembleFile d fid chunks = .error (.invalidIndex i)) ∧
    (∀ (d : Disk) (fid : String) (chunks : List ChunkInfo),
        (∀ c ∈ chunks, 0 ≤ c.Index ∧ c.Index < (chunks.length : Int)) →
        ¬ (chunks.map (fun c => c.Index)).Nodup →
        ∀ bytes, ReassembleFile d fid chunks ≠ .ok bytes) := by
  constructor
  · intro d fid chunks hex
    rcases placeChunks_oob chunks (List.replicate chunks.length none)
      chunks.length hex with ⟨i, hplace⟩
    exact ⟨i, by rw [ReassembleFile, hplace]; rfl⟩
  · intro d fid chunks hin hdup bytes hok
    rw [ReassembleFile,
        placeChunks_inrange chunks (List.replicate chunks.length none)
          chunks.length hin] at hok
    have hnone := readSlots_ok_no_none d fid _ bytes hok
    have hfill : ∀ i < chunks.length, ∃ c ∈ chunks, c.Index.toNat = i := by
      intro i hi
      have hlen : (chunks.foldl (fun a c => a.set c.Index.toNat (some c))
          (List.replicate chunks.length none)).length = chunks.length := by
        rw [foldl_set_length]
        exact List.length_replicate _ _
      have hget : (chunks.foldl (fun a c => a.set c.Index.toNat (some c))
          (List.replicate chunks.length none)).get? i ≠ some none := by
        intro hcontra
        exact hnone none (List.get?_mem hcontra) rfl
      rcases foldl_set_filled chunks (List.replicate chunks.length none) i
        hget with hrep | hfound
      · exfalso
        apply hrep
        simp [List.get?_eq_getElem?, hi]
      · exact hfound
    have hnodup := indices_nodup_of_filled chunks hfill
    apply hdup
    have : chunks.map (fun c => c.Index.toNat) =
        (chunks.map (fun c => c.Index)).map Int.toNat := by
      rw [List.map_map]
      rfl
    rw [this] at hnodup
    exact hnodup.of_map _

/-- Witness for the amended C2: an out-of-range index (5 with `N = 2`)
yields `invalidIndex`, and the duplicated-index input of the
counterexample yields no `.ok` output. -/
theorem ReassembleFile_index_errors_witness :
    (∃ c ∈ [(⟨"a", 5, 1, "f", ""⟩ : ChunkInfo), ⟨"b", 0, 1, "f", ""⟩],
        c.Index < 0 ∨
          (([(⟨"a", 5, 1, "f", ""⟩ : ChunkInfo),
             ⟨"b", 0, 1, "f", ""⟩]).length : Int) ≤ c.Index) ∧
    (∃ i, ReassembleFile [] "f"
        [⟨"a", 5, 1, "f", ""⟩, ⟨"b", 0, 1, "f", ""⟩] =
          .error (.invalidIndex i)) ∧
    (∀ c ∈ [(⟨"a", 0, 1, "f", ""⟩ : ChunkInfo), ⟨"b", 0, 1, "f", ""⟩],
        0 ≤ c.Index ∧
          c.Index < (([(⟨"a", 0, 1, "f", ""⟩ : ChunkInfo),
            ⟨"b", 0, 1, "f", ""⟩]).length : Int)) ∧
    ¬ (([(⟨"a", 0, 1, "f", ""⟩ : ChunkInfo),
        ⟨"b", 0, 1, "f", ""⟩]).map (fun c => c.Index)).Nodup ∧
    ∀ bytes, ReassembleFile [("f", "a", [7]), ("f", "b", [8])] "f"
        [⟨"a", 0, 1, "f", ""⟩, ⟨"b", 0, 1, "f", ""⟩] ≠ .ok bytes :=
  ⟨by decide, ReassembleFile_index_errors.1 [] "f" _ (by decide),
   by decide, by decide,
   ReassembleFile_index_errors.2 [("f", "a", [7]), ("f", "b", [8])] "f" _
     (by decide) (by decide)⟩

theorem toBE32_length (n : Nat) : (toBE32 n).length = 4 := rfl

theorem fromBE32_toBE32 {n : Nat} (h : n < 4294967296) :
    fromBE32 (toBE32 n) = n := by
  simp only [toBE32, fromBE32, List.foldl]
  omega

theorem readFull_prefix (p s : List Nat) :
    readFull p.length (p ++ s) = some (p, s) := by
  rw [readFull, if_pos (by simp)]
  rw [List.take_left, List.drop_left]

theorem readFull_len {n : Nat} {s t r : List Nat}
    (h : readFull n s = some (t, r)) : r.length + n = s.length := by
  rw [readFull] at h
  by_cases hle : n ≤ s.length
  · rw [if_pos hle] at h
    injection h with h'
    have hr : r = s.drop n := (congrArg Prod.snd h').symm
    subst hr
    simp only [List.length_drop]
    omega
  · rw [if_neg hle] at h
    cases h

theorem runLoopGo_frame (decode : List Nat → Option Message)
    (registered : Nat → Bool) (p rest : List Nat) (fuel : Nat)
    (hp : p.length < 4294967296) :
    runLoopGo decode registered (fuel + 1) (mkFrame p ++ rest) =
      (match decode p with
       | none => LoopEvent.decodeError
       | some m =>
         if registered m.MsgType then .dispatched m
         else .noHandler m.MsgType) ::
        runLoopGo decode registered fuel rest := by
  have h1 : readFull 4 (mkFrame p ++ rest) =
      some (toBE32 p.length, p ++ rest) := by
    rw [mkFrame, List.append_assoc]
    have h := readFull_prefix (toBE32 p.length) (p ++ rest)
    rwa [toBE32_length] at h
  have h2 : readFull (fromBE32 (toBE32 p.length)) (p ++ rest) =
      some (p, rest) := by
    rw [fromBE32_toBE32 hp]
    exact readFull_prefix p rest
  simp only [runLoopGo, h1, h2]

theorem runLoopGo_fuel (decode : List Nat → Option Message)
    (registered : Nat → Bool) :
    ∀ (n : Nat) (s : List Nat), s.length ≤ n → ∀ (f1 f2 : Nat),
      s.length < f1 → s.length < f2 →
      runLoopGo decode registered f1 s = runLoopGo decode registered f2 s := by
  intro n
  induction n with
  | zero =>
    intro s hs f1 f2 h1 h2
    have hnil : s = [] := List.length_eq_zero.1 (Nat.le_zero.1 hs)
    subst hnil
    cases f1 with
    | zero => omega
    | succ g1 =>
      cases f2 with
      | zero => omega
      | succ g2 => simp [runLoopGo, readFull]
  | succ n ih =>
    intro s hs f1 f2 h1 h2
    cases f1 with
    | zero => omega
    | succ g1 =>
      cases f2 with
      | zero => omega
      | succ g2 =>
        simp only [runLoopGo]
        cases hr1 : readFull 4 s with
        | none => rfl
        | some pr1 =>
          obtain ⟨lenB, r1⟩ := pr1
          dsimp only
          cases hr2 : readFull (fromBE32 lenB) r1 with
          | none => rfl
          | some pr2 =>
            obtain ⟨payload, r2⟩ := pr2
            dsimp only
            have e1 := readFull_len hr1
            have e2 := readFull_len hr2
            congr 1
            exact ih r2 (by omega) g1 g2 (by omega) (by omega)

theorem runLoop_frame (decode : List Nat → Option Message)
    (registered : Nat → Bool) (p rest : List Nat)
    (hp : p.length < 4294967296) :
    runLoop decode registered (mkFrame p ++ rest) =
      (match decode p with
       | none => LoopEvent.decodeError
       | some m =>
         if registered m.MsgType then .dispatched m
         else .noHandler m.MsgType) :: runLoop decode registered rest := by
  rw [runLoop, runLoop, runLoopGo_frame decode registered p rest _ hp]
  congr 1
  have hlen : (mkFrame p ++ rest).length = 4 + p.length + rest.length := by
    simp [mkFrame, toBE32]
    omega
  exact runLoopGo_fuel decode registered rest.length rest le_rfl _ _
    (by omega) (Nat.lt_succ_self _)

/-- C7: an undecodable frame does not terminate `handleConnection`'s read
loop: no `connClosed` event is produced for it (the deferred cleanup that
closes the socket and marks the peer inactive runs only at loop exit), the
loop continues exactly as it would without the bad frame, and the next
valid frame is still decoded and dispatched to its registered handler. -/
theorem handleConnection_bad_frame_continues
    (decode : List Nat → Option Message) (registered : Nat → Bool)
    (bad good rest : List Nat) (m : Message)
    (hbad : decode bad = none) (hgood : decode good = some m)
    (hreg : registered m.MsgType = true)
    (hblen : bad.length < 4294967296) (hglen : good.length < 4294967296) :
    runLoop decode registered (mkFrame bad ++ (mkFrame good ++ rest)) =
      .decodeError :: .dispatched m :: runLoop decode registered rest ∧
    runLoop decode registered (mkFrame bad ++ rest) =
      .decodeError :: runLoop decode registered rest ∧
    LoopEvent.connClosed ≠ LoopEvent.decodeError ∧
    LoopEvent.connClosed ≠ LoopEvent.dispatched m := by
  refine ⟨?_, ?_, ?_, ?_⟩
  case refine_3 => intro h; cases h
  case refine_4 => intro h; cases h
  · rw [runLoop_frame decode registered bad _ hblen]
    simp only [hbad]
    rw [runLoop_frame decode registered good rest hglen]
    simp only [hgood, hreg, if_true]
  · rw [runLoop_frame decode registered bad rest hblen]
    simp only [hbad]

/-- Witness for C7: a concrete decoder that accepts only the payload
`[1]`, a bad frame `[2]`, and an empty trailing stream. -/
theorem handleConnection_bad_frame_continues_witness :
    ((fun l => if l = [1] then some (⟨0, []⟩ : Message) else none) [2] =
        none ∧
     (fun l => if l = [1] then some (⟨0, []⟩ : Message) else none) [1] =
        some ⟨0, []⟩ ∧
     (fun (_ : Nat) => true) (0 : Nat) = true) ∧
    runLoop (fun l => if l = [1] then some (⟨0, []⟩ : Message) else none)
        (fun _ => true) (mkFrame [2] ++ (mkFrame [1] ++ [])) =
      .decodeError :: .dispatched ⟨0, []⟩ ::
        runLoop (fun l => if l = [1] then some (⟨0, []⟩ : Message) else none)
          (fun _ => true) [] ∧
    runLoop (fun l => if l = [1] then some (⟨0, []⟩ : Message) else none)
        (fun _ => true) (mkFrame [2] ++ []) =
      .decodeError ::
        runLoop (fun l => if l = [1] then some (⟨0, []⟩ : Message) else none)
          (fun _ => true) [] :=
  ⟨⟨by decide, by decide, rfl⟩,
   (handleConnection_bad_frame_continues
      (fun l => if l = [1] then some (⟨0, []⟩ : Message) else none)
      (fun _ => true) [2] [1] [] ⟨0, []⟩ (by decide) (by decide) rfl
      (by decide) (by decide)).1,
   (handleConnection_bad_frame_continues
      (fun l => if l = [1] then some (⟨0, []⟩ : Message) else none)
      (fun _ => true) [2] [1] [] ⟨0, []⟩ (by decide) (by decide) rfl
      (by decide) (by decide)).2.1⟩

/-- C8: when no peer in the map has the requested id, `DisconnectPeer`
fails with the not-found error and returns the peer map literally
unchanged: every other peer's entry and state are exactly as before. -/
theorem DisconnectPeer_unknown_notFound
    (peers : List (String × Peer)) (peerID : String)
    (h : ∀ e ∈ peers, e.2.ID ≠ peerID) :
    DisconnectPeer peers peerID = (.error .peerNotFound, peers) := by
  rw [DisconnectPeer, List.find?_eq_none.2 (fun e he => by simp [h e he])]

/-- Witness for C8: a one-peer map and an unknown peer id. -/
theorem DisconnectPeer_unknown_notFound_witness :
    (∀ e ∈ [("a1", (⟨"p1", "a1", true, 0, true⟩ : Peer))],
        (e : String × Peer).2.ID ≠ "zz") ∧
    DisconnectPeer [("a1", ⟨"p1", "a1", true, 0, true⟩)] "zz" =
      (.error .peerNotFound, [("a1", ⟨"p1", "a1", true, 0, true⟩)]) :=
  ⟨by decide,
   DisconnectPeer_unknown_notFound [("a1", ⟨"p1", "a1", true, 0, true⟩)]
     "zz" (by decide)⟩

theorem sanity_register_empty :
    RegisterNode (fun _ => true) NewNodeManager "n1" "a" 100 0 =
      .ok (⟨[("n1", ⟨"n1", "a", "active", 0, 100, 0⟩)], [("a", "n1")]⟩,
           ⟨"n1", "a", "active", 0, 100, 0⟩) := by
  rfl
